import Mathlib

/-
Shallow embedding of `src/climate-trajectories/merge_data.py`, a pandas
pipeline that normalizes five OWID-style indicator CSVs and two
temperature archives into one merged country-year master table plus a
global monthly temperature series.

Modelling conventions:
  * A pandas cell is `Cell`: a number (ℚ stands in for float64), a string,
    or a missing value (NaN / None / pd.NA are all `Cell.null`).
  * A DataFrame fresh from `pd.read_csv` is `RawTable`: a header naming the
    columns and the rows, read left to right.  Column access is by name,
    as in the source; tables with duplicated column names are outside the
    model (pandas itself misbehaves on them).
  * `pd.to_numeric(errors="coerce")` is `toNum`: numbers pass through,
    strings are parsed as optionally signed decimal literals, everything
    else (including scientific notation, a modelling simplification)
    coerces to null.
  * Renaming columns (`df.rename`) only relabels; canonical rows carry
    their fields positionally, so the rename is the identity on row data.
  * Errors raised by the script (`ValueError`, `FileNotFoundError`) are
    `Except` values; filesystem writes become returned values.
-/

namespace MergeData

/-- A single tabular cell as produced by `pd.read_csv`: a float64 value
(modelled as ℚ), a string, or a missing value (NaN). -/
inductive Cell where
  | num (q : ℚ)
  | str (s : String)
  | null
  deriving DecidableEq, Repr

/-- A raw DataFrame: column names plus rows of cells. -/
structure RawTable where
  header : List String
  rows : List (List Cell)
  deriving DecidableEq, Repr

/-- `START_YEAR = 2000` (module-level constant in the source). -/
def START_YEAR : ℚ := 2000

/-- `END_YEAR = 2023` (module-level constant in the source). -/
def END_YEAR : ℚ := 2023

/-- Parse a nonempty run of decimal digits as a natural number. -/
def parseDigits (cs : List Char) : Option Nat :=
  if cs.isEmpty then none
  else
    cs.foldl
      (fun acc c =>
        acc.bind fun n => if c.isDigit then some (10 * n + (c.toNat - 48)) else none)
      (some 0)

/-- Parse a string as an optionally signed decimal literal, the way
`pd.to_numeric(errors="coerce")` accepts plain numeric text.  Scientific
notation is treated as non-numeric (a modelling simplification: no claim
depends on it). -/
def parseRatString (s : String) : Option ℚ :=
  let core : List Char → Option ℚ := fun cs =>
    match cs.splitOn '.' with
    | [ip] => (parseDigits ip).map fun n => (n : ℚ)
    | [ip, fp] =>
        if ip.isEmpty && fp.isEmpty then none
        else
          let ipv : Option ℚ := if ip.isEmpty then some 0 else (parseDigits ip).map fun n => (n : ℚ)
          let fpv : Option ℚ := if fp.isEmpty then some 0 else (parseDigits fp).map fun n => (n : ℚ) / (10 ^ fp.length : ℚ)
          ipv.bind fun i => fpv.map fun f => i + f
    | _ => none
  match s.toList with
  | '-' :: rest => (core rest).map Neg.neg
  | '+' :: rest => core rest
  | cs => core cs

/-- `pd.to_numeric(col, errors="coerce")` applied to one cell: numbers pass
through, numeric strings parse, everything else becomes null. -/
def toNum : Cell → Option ℚ
  | .num q => some q
  | .str s => parseRatString s
  | .null => none

/-- The regex filter `^[A-Z]{3}$` on a string. -/
def isIso3Str (s : String) : Bool :=
  s.length == 3 && s.toList.all fun c => decide ('A' ≤ c) && decide (c ≤ 'Z')

/-- `df["iso3"].astype("string").str.match(r"^[A-Z]{3}$", na=False)` on one
cell, returning the matched code.  A numeric cell stringifies to decimal
text, which can never match three uppercase letters; a null cell fails the
match because of `na=False`. -/
def iso3OfCell : Cell → Option String
  | .str s => if isIso3Str s then some s else none
  | _ => none

/-- Index of a named column in the header, as pandas column access by
name (first occurrence). -/
def RawTable.colIdx (t : RawTable) (name : String) : Option Nat :=
  t.header.indexOf? name

/-- Fetch the cell of a row at an optional column index; absent columns
and short rows read as null. -/
def cellAt (row : List Cell) : Option Nat → Cell
  | some i => row.getD i Cell.null
  | none => Cell.null

/-- The source's `df["Code"] = None` fallback: when no `Code` column
exists, append one whose cells are all null. -/
def addCode (t : RawTable) : RawTable :=
  if t.header.contains "Code" then t
  else ⟨t.header ++ ["Code"], t.rows.map fun row => row ++ [Cell.null]⟩

/-- The reserved OWID column names `Entity`, `Code`, `Year`. -/
def isKeyCol (c : String) : Bool :=
  c == "Entity" || c == "Code" || c == "Year"

/-- Value-column detection: walk `df.columns[::-1]` and take the first
column that is not `Entity`, `Code` or `Year`. -/
def pickValueCol (h : List String) : Option String :=
  h.reverse.find? fun c => ! isKeyCol c

/-- Errors raised by the script's loaders (`ValueError` messages in the
source, distinguished here by site). -/
inductive SchemaErr where
  | missingEntityYear
  | noValueColumn
  | badTempColumns
  | badGlobalColumns
  deriving DecidableEq, Repr

instance instDecEqExcept {ε α : Type} [DecidableEq ε] [DecidableEq α] :
    DecidableEq (Except ε α)
  | .ok a, .ok b =>
      if h : a = b then .isTrue (by rw [h]) else .isFalse (by simp [h])
  | .ok _, .error _ => .isFalse (by simp)
  | .error _, .ok _ => .isFalse (by simp)
  | .error e, .error f =>
      if h : e = f then .isTrue (by rw [h]) else .isFalse (by simp [h])

/-- Composite join key `(iso3, country, year)`.  After normalization the
code is a real string, the year a number; the country name is whatever
cell sat in `Entity`. -/
structure Key where
  iso3 : String
  country : Cell
  year : ℚ
  deriving DecidableEq, Repr

/-- One canonical indicator row `(iso3, country, year, value)`. -/
structure IRow where
  key : Key
  value : Option ℚ
  deriving DecidableEq, Repr

/-- Per-row body of `read_owid_csv`: coerce `Year`, filter to the year
window, filter to ISO3 codes, coerce the value column. -/
def owidRow (codeIdx entIdx yearIdx valIdx : Option Nat) (row : List Cell) : Option IRow :=
  match toNum (cellAt row yearIdx) with
  | none => none
  | some y =>
    if START_YEAR ≤ y ∧ y ≤ END_YEAR then
      match iso3OfCell (cellAt row codeIdx) with
      | some s => some ⟨⟨s, cellAt row entIdx, y⟩, toNum (cellAt row valIdx)⟩
      | none => none
    else none

/-- `read_owid_csv` (merge_data.py lines 22-48): require `Entity` and
`Year`, inject a null `Code` column when absent, detect the value column
as the last non-reserved column, then coerce and filter row by row.  The
`value_name` rename only relabels the value column and is the identity on
row data, so it does not appear here. -/
def read_owid_csv (t0 : RawTable) : Except SchemaErr (List IRow) :=
  if t0.header.contains "Entity" && t0.header.contains "Year" then
    match pickValueCol (addCode t0).header with
    | none => .error .noValueColumn
    | some vcol =>
        .ok ((addCode t0).rows.filterMap
          (owidRow ((addCode t0).colIdx "Code") ((addCode t0).colIdx "Entity")
            ((addCode t0).colIdx "Year") ((addCode t0).colIdx vcol)))
  else .error .missingEntityYear

/-- Year extracted from a `Day` cell by `pd.to_datetime(errors="coerce")`
followed by `.dt.year`: an ISO `YYYY-MM-DD` string with a plausible
calendar month and day yields its year; anything else parses to NaT, whose
year is null.  (Other date spellings accepted by pandas are outside the
model; no claim depends on them.) -/
def dayYear : Cell → Option ℚ
  | .str s =>
      match s.toList.splitOn '-' with
      | [y, m, d] =>
          match parseDigits y, parseDigits m, parseDigits d with
          | some yv, some mv, some dv =>
              if 1 ≤ mv ∧ mv ≤ 12 ∧ 1 ≤ dv ∧ dv ≤ 31 then some (yv : ℚ) else none
          | _, _, _ => none
      | _ => none
  | _ => none

/-- Row-wise preprocessing of `load_country_temp_anom` before the groupby
(merge_data.py lines 65-76): parse the date, filter to the year window,
filter to ISO3 codes, coerce the anomaly. -/
def tempPrep (t : RawTable) : List IRow :=
  t.rows.filterMap fun row =>
    match dayYear (cellAt row (t.colIdx "Day")) with
    | none => none
    | some y =>
      if START_YEAR ≤ y ∧ y ≤ END_YEAR then
        match iso3OfCell (cellAt row (t.colIdx "Code")) with
        | some s => some ⟨⟨s, cellAt row (t.colIdx "Entity"), y⟩, toNum (cellAt row (t.colIdx "Temperature anomaly"))⟩
        | none => none
      else none

/-- Pandas `Series.mean()`: nulls are excluded; when every value is null
the mean is null (NaN), never zero. -/
def meanOpt (vs : List (Option ℚ)) : Option ℚ :=
  let xs := vs.filterMap id
  if xs.isEmpty then none else some (xs.sum / (xs.length : ℚ))

/-- `df.groupby(["iso3","country","year"], as_index=False)["temp_anom"].mean()`:
one output row per distinct key carrying the mean of its group's values.
(Pandas lists groups in sorted key order; the group order is irrelevant to
every claim, so the model uses `dedup` order.) -/
def groupMean (rows : List IRow) : List IRow :=
  (rows.map fun r => r.key).dedup.map fun k =>
    ⟨k, meanOpt ((rows.filter fun r => r.key == k).map fun r => r.value)⟩

/-- The rows entering the groupby: preprocessed daily rows minus those
with a null group key (pandas `groupby` default `dropna=True`; only the
country name can still be null at this point). -/
def tempGroups (t : RawTable) : List IRow :=
  (tempPrep t).filter fun r => ! (r.key.country == Cell.null)

/-- `load_country_temp_anom` (merge_data.py lines 57-83): check the four
required columns, preprocess row-wise, then aggregate to an annual mean
per (iso3, country, year). -/
def load_country_temp_anom (t : RawTable) : Except SchemaErr (List IRow) :=
  if ["Entity", "Code", "Day", "Temperature anomaly"].all (fun c => t.header.contains c) then
    .ok (groupMean (tempGroups t))
  else .error .badTempColumns

/-- One row of the global monthly output: original month name, year,
anomaly, and the calendar index added by the script. -/
structure GRow where
  month : String
  year : ℚ
  temp : Option ℚ
  month_idx : Nat
  deriving DecidableEq, Repr

/-- The fixed calendar table `month_order`. -/
def month_order : List String :=
  ["January", "February", "March", "April", "May", "June",
   "July", "August", "September", "October", "November", "December"]

/-- `df["month"].map(order_map)` on one cell: an exact, case-sensitive
English month name maps to its 1-based index (paired with the name);
anything else maps to null. -/
def monthLookup : Cell → Option (String × Nat)
  | .str s => (month_order.indexOf? s).map fun i => (s, i + 1)
  | _ => none

/-- Boolean comparison used for `sort_values(["year","month_idx"])`:
lexicographic on (year, month index). -/
def gLe (a b : GRow) : Bool :=
  decide (a.year < b.year) || (decide (a.year = b.year) && decide (a.month_idx ≤ b.month_idx))

/-- Per-row body of `export_global_temp_monthly`: coerce `Year`, filter to
the year window, map the month name (an unrecognized name yields null and
the row is dropped by `dropna(subset=["month_idx"])`), coerce the anomaly. -/
def globalRow (yearIdx entIdx anomIdx : Option Nat) (row : List Cell) : Option GRow :=
  match toNum (cellAt row yearIdx) with
  | none => none
  | some y =>
    if START_YEAR ≤ y ∧ y ≤ END_YEAR then
      match monthLookup (cellAt row entIdx) with
      | some mi => some ⟨mi.1, y, toNum (cellAt row anomIdx), mi.2⟩
      | none => none
    else none

/-- `export_global_temp_monthly` (merge_data.py lines 86-105): check the
three required columns, coerce and filter row by row, and sort by
(year, month_idx).  Pandas' multi-column `sort_values` is a stable
lexicographic sort, modelled by `mergeSort`.  The rows returned are the
rows the script writes to `global_temp_monthly.csv`. -/
def export_global_temp_monthly (t : RawTable) : Except SchemaErr (List GRow) :=
  if ["Entity", "Year", "Temperature anomaly"].all (fun c => t.header.contains c) then
    .ok (List.mergeSort
      (t.rows.filterMap
        (globalRow (t.colIdx "Year") (t.colIdx "Entity") (t.colIdx "Temperature anomaly")))
      gLe)
  else .error .badGlobalColumns

/-- One row of the merged master table: the join key plus the five
indicator columns and the temperature column.  A column a row never
received holds null (when no temperature table is merged at all, the
column stays null everywhere and `MainOut.tempUsed` records its absence). -/
structure MRow where
  key : Key
  co2_pc : Option ℚ
  energy_pc : Option ℚ
  water_basic_pct : Option ℚ
  sanitation_pct : Option ℚ
  gdp_pc : Option ℚ
  temp_anom : Option ℚ
  deriving DecidableEq, Repr

/-- Pandas `left.merge(right, on=key, how="outer")` specialised to one new
value column: every left row is kept (paired with each matching right row,
or with a null new column when unmatched), and every right row whose key
matches no left row enters as a fresh row built by `blank`.  Pandas sorts
an outer join's keys; row order is irrelevant to every claim, so the model
keeps left-then-right order. -/
def outerMerge (setV : MRow → Option ℚ → MRow) (blank : Key → Option ℚ → MRow)
    (acc : List MRow) (t : List IRow) : List MRow :=
  (acc.flatMap fun a =>
    match t.filter fun m => m.key == a.key with
    | [] => [setV a none]
    | ms => ms.map fun m => setV a m.value)
  ++ ((t.filter fun m => ! (acc.any fun a => a.key == m.key)).map fun m => blank m.key m.value)

/-- Lift a co2 row into the master shape (the first table of the chain). -/
def initCo2 (r : IRow) : MRow := ⟨r.key, r.value, none, none, none, none, none⟩

def setEnergy (a : MRow) (v : Option ℚ) : MRow := { a with energy_pc := v }

def blankEnergy (k : Key) (v : Option ℚ) : MRow := ⟨k, none, v, none, none, none, none⟩

def setWater (a : MRow) (v : Option ℚ) : MRow := { a with water_basic_pct := v }

def blankWater (k : Key) (v : Option ℚ) : MRow := ⟨k, none, none, v, none, none, none⟩

def setSanit (a : MRow) (v : Option ℚ) : MRow := { a with sanitation_pct := v }

def blankSanit (k : Key) (v : Option ℚ) : MRow := ⟨k, none, none, none, v, none, none⟩

def setGdp (a : MRow) (v : Option ℚ) : MRow := { a with gdp_pc := v }

def blankGdp (k : Key) (v : Option ℚ) : MRow := ⟨k, none, none, none, none, v, none⟩

/-- The chain of outer joins (merge_data.py lines 147-150). -/
def mergeAll (c e w s g : List IRow) : List MRow :=
  outerMerge setGdp blankGdp
    (outerMerge setSanit blankSanit
      (outerMerge setWater blankWater
        (outerMerge setEnergy blankEnergy (c.map initCo2) e) w) s) g

/-- `df.merge(temp, on=key, how="left")` (merge_data.py line 153): every
left row is kept, enriched with each matching temperature value or null;
temperature-only keys create no rows. -/
def leftMerge (acc : List MRow) (t : List IRow) : List MRow :=
  acc.flatMap fun a =>
    match t.filter fun m => m.key == a.key with
    | [] => [{ a with temp_anom := none }]
    | ms => ms.map fun m => { a with temp_anom := m.value }

/-- Boolean comparison used for `df.sort_values(["iso3","year"])`:
lexicographic on (iso3, year). -/
def mLe (a b : MRow) : Bool :=
  decide (a.key.iso3 < b.key.iso3)
    || (a.key.iso3 == b.key.iso3 && decide (a.key.year ≤ b.key.year))

/-- The final sort (merge_data.py line 155).  With several sort columns
pandas uses `numpy.lexsort`, a stable sort, modelled by `mergeSort`. -/
def finalSort (l : List MRow) : List MRow :=
  l.mergeSort mLe

/-- Top-level failures of `main`: the `FileNotFoundError` for missing
required indicator files, or an uncaught `ValueError` from
`read_owid_csv` on a required source. -/
inductive MainErr where
  | missingFiles
  | schema (e : SchemaErr)
  deriving DecidableEq, Repr

/-- Filesystem environment seen by `main`: for each input, `none` when no
candidate file exists, otherwise the parsed table (for the zips, the named
inner CSV). -/
structure Env where
  co2 : Option RawTable
  energy : Option RawTable
  water : Option RawTable
  sanit : Option RawTable
  gdp : Option RawTable
  tempZip : Option RawTable
  globalZip : Option RawTable

/-- Everything `main` writes: the merged master table, whether the
temperature column was actually merged, and the global monthly table when
that export succeeded. -/
structure MainOut where
  merged : List MRow
  tempUsed : Bool
  globalOut : Option (List GRow)

/-- Body of `main` once the five required files were found: read the five
indicators in order (an uncaught error aborts at the first failing
source), try the two optional temperature features (their errors are
caught by `try/except` and downgraded to skipping the feature, modelled by
`Except.toOption`), then outer-merge, left-merge temperature when
present, and sort. -/
def tempFeature (tempZip : Option RawTable) : Option (List IRow) :=
  match tempZip with
  | none => none
  | some tz => (load_country_temp_anom tz).toOption

def globalFeature (globalZip : Option RawTable) : Option (List GRow) :=
  match globalZip with
  | none => none
  | some gz => (export_global_temp_monthly gz).toOption

def mainLoaded (tc te tw ts tg : RawTable) (tempZip globalZip : Option RawTable) :
    Except MainErr MainOut :=
  match read_owid_csv tc with
  | .error e => .error (.schema e)
  | .ok co2 =>
    match read_owid_csv te with
    | .error e => .error (.schema e)
    | .ok energy =>
      match read_owid_csv tw with
      | .error e => .error (.schema e)
      | .ok water =>
        match read_owid_csv ts with
        | .error e => .error (.schema e)
        | .ok sanit =>
          match read_owid_csv tg with
          | .error e => .error (.schema e)
          | .ok gdp =>
            .ok ⟨finalSort
                (match tempFeature tempZip with
                 | none => mergeAll co2 energy water sanit gdp
                 | some tp => leftMerge (mergeAll co2 energy water sanit gdp) tp),
              (tempFeature tempZip).isSome, globalFeature globalZip⟩

/-- `main` (merge_data.py lines 108-160): locate the five required files
(any absence is fatal, raised before anything is read or written), then
run the loaded pipeline. -/
def main (env : Env) : Except MainErr MainOut :=
  match env.co2, env.energy, env.water, env.sanit, env.gdp with
  | some tc, some te, some tw, some ts, some tg =>
      mainLoaded tc te tw ts tg env.tempZip env.globalZip
  | _, _, _, _, _ => .error .missingFiles

/-- A canonical output re-encoded as the table `read_owid_csv` actually
returns: columns named `iso3, country, year, <value>`. -/
def canonicalAsTable (rows : List IRow) (vname : String) : RawTable :=
  ⟨["iso3", "country", "year", vname],
   rows.map fun r =>
     [Cell.str r.key.iso3, r.key.country, Cell.num r.key.year,
      match r.value with | some q => Cell.num q | none => Cell.null]⟩

/-- A canonical output re-encoded with the OWID source column names
(`Entity, Code, Year, <value>`), i.e. the rename undone. -/
def reEncodeOwid (rows : List IRow) (vname : String) : RawTable :=
  ⟨["Entity", "Code", "Year", vname],
   rows.map fun r =>
     [r.key.country, Cell.str r.key.iso3, Cell.num r.key.year,
      match r.value with | some q => Cell.num q | none => Cell.null]⟩

/-! ### Helper lemmas about `read_owid_csv` -/

lemma iso3OfCell_isIso3 {c : Cell} {s : String} (h : iso3OfCell c = some s) :
    isIso3Str s = true := by
  cases c with
  | str s0 =>
      by_cases hs : isIso3Str s0 = true
      · simp [iso3OfCell, hs] at h
        subst h
        exact hs
      · simp [iso3OfCell, hs] at h
  | num q => simp [iso3OfCell] at h
  | null => simp [iso3OfCell] at h

lemma owidRow_some {ci ei yi vi : Option Nat} {row : List Cell} {r : IRow}
    (h : owidRow ci ei yi vi row = some r) :
    isIso3Str r.key.iso3 = true ∧ START_YEAR ≤ r.key.year ∧ r.key.year ≤ END_YEAR := by
  unfold owidRow at h
  split at h
  · exact absurd h (by simp)
  · rename_i y hy
    split at h
    · rename_i hb
      split at h
      · rename_i s hs
        injection h with h
        subst h
        exact ⟨iso3OfCell_isIso3 hs, hb.1, hb.2⟩
      · exact absurd h (by simp)
    · exact absurd h (by simp)

lemma read_owid_ok_mem {t : RawTable} {rows : List IRow} {r : IRow}
    (h : read_owid_csv t = .ok rows) (hr : r ∈ rows) :
    isIso3Str r.key.iso3 = true ∧ START_YEAR ≤ r.key.year ∧ r.key.year ≤ END_YEAR := by
  unfold read_owid_csv at h
  split at h
  · split at h
    · exact absurd h (by simp)
    · rw [Except.ok.injEq] at h
      subst h
      obtain ⟨row, -, hrow⟩ := List.mem_filterMap.mp hr
      exact owidRow_some hrow
  · exact absurd h (by simp)

lemma addCode_header_eq (h : List String) (rs1 rs2 : List (List Cell)) :
    (addCode ⟨h, rs1⟩).header = (addCode ⟨h, rs2⟩).header := by
  unfold addCode
  by_cases hc : "Code" ∈ h <;> simp [hc]

lemma read_owid_isOk_rows (h : List String) (rs1 rs2 : List (List Cell)) :
    (read_owid_csv ⟨h, rs1⟩).isOk = (read_owid_csv ⟨h, rs2⟩).isOk := by
  unfold read_owid_csv
  rw [addCode_header_eq h rs1 rs2]
  split
  · cases hp : pickValueCol (addCode ⟨h, rs2⟩).header <;> rfl
  · rfl

lemma find?_eq_head?_filter (p : α → Bool) (l : List α) :
    l.find? p = (l.filter p).head? := by
  induction l with
  | nil => rfl
  | cons a l ih =>
      rw [List.find?_cons, List.filter_cons]
      cases hp : p a
      · exact ih
      · rfl

lemma find?_reverse (p : α → Bool) (l : List α) :
    l.reverse.find? p = (l.filter p).getLast? := by
  rw [find?_eq_head?_filter, List.filter_reverse, List.head?_reverse]

lemma addCode_filter (t : RawTable) :
    (addCode t).header.filter (fun c => ! isKeyCol c) =
      t.header.filter (fun c => ! isKeyCol c) := by
  unfold addCode
  split
  · rfl
  · show (t.header ++ ["Code"]).filter _ = _
    rw [List.filter_append]
    simp [isKeyCol]

lemma pickValueCol_addCode (t : RawTable) :
    pickValueCol (addCode t).header = (t.header.filter fun c => ! isKeyCol c).getLast? := by
  rw [pickValueCol, find?_reverse, addCode_filter]

/-- C3: every row surviving `read_owid_csv` carries a country code matching
`^[A-Z]{3}$` and a year inside `[START_YEAR, END_YEAR]`; rows failing either
filter are dropped silently — whether the call raises depends only on the
header, never on the row data. -/
theorem owid_rows_filtered :
    ∀ (t : RawTable) (rows : List IRow), read_owid_csv t = .ok rows →
      (∀ r ∈ rows,
        isIso3Str r.key.iso3 = true ∧ START_YEAR ≤ r.key.year ∧ r.key.year ≤ END_YEAR) ∧
      ∀ rs : List (List Cell), (read_owid_csv ⟨t.header, rs⟩).isOk = true := by
  intro t rows h
  refine ⟨fun r hr => read_owid_ok_mem h hr, fun rs => ?_⟩
  rw [read_owid_isOk_rows t.header rs t.rows]
  show (read_owid_csv t).isOk = true
  rw [h]
  rfl

def tC3 : RawTable :=
  ⟨["Entity", "Code", "Year", "v"],
   [[.str "Testland", .str "TST", .num 2010, .num 5],
    [.str "Badland", .str "T1", .num 2010, .num 1],
    [.str "Oldland", .str "OLD", .num 1999, .num 1]]⟩

def rowsC3 : List IRow := [⟨⟨"TST", .str "Testland", 2010⟩, some 5⟩]

theorem owid_rows_filtered_witness :
    (∀ r ∈ rowsC3,
      isIso3Str r.key.iso3 = true ∧ START_YEAR ≤ r.key.year ∧ r.key.year ≤ END_YEAR) ∧
    (read_owid_csv ⟨tC3.header, []⟩).isOk = true :=
  ⟨(owid_rows_filtered tC3 rowsC3 (by decide)).1,
   (owid_rows_filtered tC3 rowsC3 (by decide)).2 []⟩

/-- C6: `read_owid_csv` errors exactly when `Entity` or `Year` is absent or
every column is one of the reserved names (so no value column exists); the
value column it uses is the last non-reserved column in source order; a
missing `Code` column is no error — it is materialized as an all-null
column instead. -/
theorem owid_schema_error_iff :
    ∀ t : RawTable,
      ((∃ e, read_owid_csv t = .error e) ↔
        ("Entity" ∉ t.header ∨ "Year" ∉ t.header ∨
          t.header.filter (fun c => ! isKeyCol c) = [])) ∧
      pickValueCol (addCode t).header = (t.header.filter fun c => ! isKeyCol c).getLast? ∧
      ("Code" ∉ t.header →
        (addCode t).header = t.header ++ ["Code"] ∧
        (addCode t).rows = t.rows.map fun row => row ++ [Cell.null]) := by
  intro t
  refine ⟨?_, pickValueCol_addCode t, fun hc => ?_⟩
  · constructor
    · intro h0
      obtain ⟨e, he⟩ := h0
      unfold read_owid_csv at he
      split at he
      · split at he
        · rename_i hpv
          refine Or.inr (Or.inr ?_)
          rw [pickValueCol_addCode t, List.getLast?_eq_none_iff] at hpv
          exact hpv
        · exact absurd he (by simp)
      · rename_i hcond
        by_cases he2 : "Entity" ∈ t.header
        · refine Or.inr (Or.inl ?_)
          intro hy2
          exact hcond (by simp [he2, hy2])
        · exact Or.inl he2
    · intro h0
      unfold read_owid_csv
      by_cases hc : (t.header.contains "Entity" && t.header.contains "Year") = true
      · rw [if_pos hc]
        rcases h0 with he2 | hy2 | hfil
        · rw [Bool.and_eq_true] at hc
          exact absurd hc.1 (by simp [he2])
        · rw [Bool.and_eq_true] at hc
          exact absurd hc.2 (by simp [hy2])
        · have hpv : pickValueCol (addCode t).header = none := by
            rw [pickValueCol_addCode t, List.getLast?_eq_none_iff]
            exact hfil
          refine ⟨.noValueColumn, ?_⟩
          rw [hpv]
      · rw [if_neg hc]
        exact ⟨.missingEntityYear, rfl⟩
  · unfold addCode
    simp [hc]

def tC6 : RawTable := ⟨["Entity", "Year", "x", "v"], []⟩

theorem owid_schema_error_iff_witness :
    (¬ ∃ e, read_owid_csv tC6 = .error e) ∧
    pickValueCol (addCode tC6).header = some "v" :=
  ⟨fun h => by
      have := (owid_schema_error_iff tC6).1.mp h
      revert this
      decide,
   by
      have := (owid_schema_error_iff tC6).2.1
      rw [this]
      decide⟩

/-! ### Missing `Code` column (C10) -/

lemma indexOf?_append_self (x : String) :
    ∀ l : List String, x ∉ l → (l ++ [x]).indexOf? x = some l.length := by
  intro l
  induction l with
  | nil => simp [List.indexOf?_cons]
  | cons a l ih =>
      intro h
      rw [List.cons_append, List.indexOf?_cons]
      have ha : (a == x) = false := by
        simp only [beq_eq_false_iff_ne]
        exact fun h0 => h (h0 ▸ List.mem_cons_self a l)
      rw [ha]
      simp only [Bool.false_eq_true, if_false]
      rw [ih (fun h0 => h (List.mem_cons_of_mem a h0))]
      rfl

lemma getD_append_self : ∀ (row : List Cell) (c d : Cell), (row ++ [c]).getD row.length d = c := by
  intro row
  induction row with
  | nil => intro c d; rfl
  | cons a l ih =>
      intro c d
      simp only [List.cons_append, List.length_cons, List.getD_cons_succ]
      exact ih c d

lemma owidRow_null_code {ci ei yi vi : Option Nat} {row : List Cell}
    (hc : cellAt row ci = Cell.null) : owidRow ci ei yi vi row = none := by
  unfold owidRow
  split
  · rfl
  · split
    · rw [hc]
      rfl
    · rfl

/-- C10: a table with `Entity`, `Year` and a value column but no `Code`
column normalizes to the empty row list without raising: the injected
all-null `Code` column fails the ISO3 match (`na=False`) on every row. -/
theorem owid_no_code_empty :
    ∀ t : RawTable,
      "Entity" ∈ t.header → "Year" ∈ t.header → "Code" ∉ t.header →
      t.header.filter (fun c => ! isKeyCol c) ≠ [] →
      (∀ row ∈ t.rows, row.length = t.header.length) →
      read_owid_csv t = .ok [] := by
  intro t hent hyear hcode hval hrect
  unfold read_owid_csv
  rw [if_pos (by simp [hent, hyear])]
  have hcodeF : t.header.contains "Code" = false := by
    simp [hcode]
  have haddh : (addCode t).header = t.header ++ ["Code"] := by
    unfold addCode
    rw [hcodeF]
    simp
  have haddr : (addCode t).rows = t.rows.map fun row => row ++ [Cell.null] := by
    unfold addCode
    rw [hcodeF]
    simp
  cases hp : pickValueCol (addCode t).header with
  | none =>
      rw [pickValueCol_addCode t, List.getLast?_eq_none_iff] at hp
      exact absurd hp hval
  | some vcol =>
      dsimp only
      congr 1
      rw [List.filterMap_eq_nil_iff]
      intro r hr
      rw [haddr, List.mem_map] at hr
      obtain ⟨row, hrow, rfl⟩ := hr
      apply owidRow_null_code
      have hidx : (addCode t).colIdx "Code" = some t.header.length := by
        show (addCode t).header.indexOf? "Code" = some t.header.length
        rw [haddh]
        exact indexOf?_append_self "Code" t.header hcode
      rw [hidx]
      show (row ++ [Cell.null]).getD t.header.length Cell.null = Cell.null
      rw [← hrect row hrow]
      exact getD_append_self row Cell.null Cell.null

def tC10 : RawTable :=
  ⟨["Entity", "Year", "v"],
   [[.str "Testland", .num 2010, .num 5]]⟩

theorem owid_no_code_empty_witness : read_owid_csv tC10 = .ok [] :=
  owid_no_code_empty tC10 (by decide) (by decide) (by decide) (by decide)
    (by decide)

/-! ### Idempotence of normalization (C9) -/

def tC9 : RawTable :=
  ⟨["Entity", "Code", "Year", "v"],
   [[.str "Testland", .str "TST", .num 2010, .num 5]]⟩

def rowsC9 : List IRow := [⟨⟨"TST", .str "Testland", 2010⟩, some 5⟩]

/-- C9 counterexample: `read_owid_csv` applied to its own output — a table
whose columns are the canonical `iso3, country, year, value` names — does
not return the same rows; it raises the missing-`Entity`/`Year` schema
error, because normalization renamed those columns away. -/
theorem owid_not_idempotent_on_own_output :
    read_owid_csv tC9 = .ok rowsC9 ∧
    read_owid_csv (canonicalAsTable rowsC9 "v") = .error .missingEntityYear := by
  constructor
  · decide
  · decide

lemma filterMap_eq_self_of (l : List α) (g : α → Option α)
    (h : ∀ a ∈ l, g a = some a) : l.filterMap g = l := by
  induction l with
  | nil => rfl
  | cons a l ih =>
      rw [List.filterMap_cons, h a (List.mem_cons_self a l)]
      rw [ih fun b hb => h b (List.mem_cons_of_mem a hb)]

lemma owidRow_reEncode {r : IRow} (h3 : isIso3Str r.key.iso3 = true)
    (hy1 : START_YEAR ≤ r.key.year) (hy2 : r.key.year ≤ END_YEAR) :
    owidRow (some 1) (some 0) (some 2) (some 3)
      [r.key.country, Cell.str r.key.iso3, Cell.num r.key.year,
       match r.value with | some q => Cell.num q | none => Cell.null] = some r := by
  obtain ⟨⟨i, c, y⟩, v⟩ := r
  simp only at h3 hy1 hy2
  unfold owidRow
  show (match toNum (Cell.num y) with
    | none => none
    | some y2 => _) = some (⟨⟨i, c, y⟩, v⟩ : IRow)
  rw [show toNum (Cell.num y) = some y from rfl]
  simp only [hy1, hy2, and_self, if_true]
  show (match iso3OfCell (Cell.str i) with | some s => _ | none => none) = _
  rw [show iso3OfCell (Cell.str i) = some i by simp [iso3OfCell, h3]]
  simp only [Option.some.injEq]
  show (⟨⟨i, _, y⟩, _⟩ : IRow) = ⟨⟨i, c, y⟩, v⟩
  cases v <;> rfl

/-- C9 (amended): idempotence holds once the canonical output is
re-encoded under the OWID source column names (`Entity`, `Code`, `Year`):
normalizing that table again returns exactly the same rows, with nothing
further dropped and no error. -/
theorem owid_idempotent_after_rename :
    ∀ (t : RawTable) (rows : List IRow) (vname : String),
      read_owid_csv t = .ok rows → isKeyCol vname = false →
      read_owid_csv (reEncodeOwid rows vname) = .ok rows := by
  intro t rows vname hok hv
  have hvE : (("Entity" : String) == vname) = false := by
    simp only [isKeyCol, Bool.or_eq_false_iff] at hv
    have := hv.1.1
    simp only [beq_eq_false_iff_ne] at this ⊢
    exact fun h0 => this (h0 ▸ rfl)
  have hvC : (("Code" : String) == vname) = false := by
    simp only [isKeyCol, Bool.or_eq_false_iff] at hv
    have := hv.1.2
    simp only [beq_eq_false_iff_ne] at this ⊢
    exact fun h0 => this (h0 ▸ rfl)
  have hvY : (("Year" : String) == vname) = false := by
    simp only [isKeyCol, Bool.or_eq_false_iff] at hv
    have := hv.2
    simp only [beq_eq_false_iff_ne] at this ⊢
    exact fun h0 => this (h0 ▸ rfl)
  have hhd : (reEncodeOwid rows vname).header = ["Entity", "Code", "Year", vname] := rfl
  have hadd : addCode (reEncodeOwid rows vname) = reEncodeOwid rows vname := by
    unfold addCode
    rw [hhd]
    simp
  unfold read_owid_csv
  rw [if_pos (by rw [hhd]; simp)]
  rw [hadd]
  have hpick : pickValueCol (reEncodeOwid rows vname).header = some vname := by
    rw [hhd]
    unfold pickValueCol
    show List.find? _ [vname, "Year", "Code", "Entity"] = some vname
    rw [List.find?_cons]
    have : (! isKeyCol vname) = true := by rw [hv]; rfl
    rw [this]
  rw [hpick]
  dsimp only
  congr 1
  have hciC : (reEncodeOwid rows vname).colIdx "Code" = some 1 := by
    show List.indexOf? "Code" ["Entity", "Code", "Year", vname] = some 1
    simp [List.indexOf?_cons]
  have hciE : (reEncodeOwid rows vname).colIdx "Entity" = some 0 := by
    show List.indexOf? "Entity" ["Entity", "Code", "Year", vname] = some 0
    simp [List.indexOf?_cons]
  have hciY : (reEncodeOwid rows vname).colIdx "Year" = some 2 := by
    show List.indexOf? "Year" ["Entity", "Code", "Year", vname] = some 2
    simp [List.indexOf?_cons]
  have hciV : (reEncodeOwid rows vname).colIdx vname = some 3 := by
    show List.indexOf? vname ["Entity", "Code", "Year", vname] = some 3
    rw [List.indexOf?_cons, hvE, List.indexOf?_cons, hvC, List.indexOf?_cons, hvY,
      List.indexOf?_cons]
    simp
  rw [hciC, hciE, hciY, hciV]
  show List.filterMap _ (rows.map _) = rows
  rw [List.filterMap_map]
  apply filterMap_eq_self_of
  intro r hr
  obtain ⟨h3, hy1, hy2⟩ := read_owid_ok_mem hok hr
  exact owidRow_reEncode h3 hy1 hy2

theorem owid_idempotent_after_rename_witness :
    read_owid_csv (reEncodeOwid rowsC9 "v") = .ok rowsC9 :=
  owid_idempotent_after_rename tC9 rowsC9 "v" (by decide) (by decide)

/-! ### Outer-join chain (C1) and temperature left join (C2) -/

def keysOfI (t : List IRow) : List Key := t.map fun r => r.key

def keysOfM (t : List MRow) : List Key := t.map fun r => r.key

lemma mem_keysOfI {t : List IRow} {k : Key} : k ∈ keysOfI t ↔ ∃ m ∈ t, m.key = k := by
  unfold keysOfI
  rw [List.mem_map]

lemma mem_keysOfM {t : List MRow} {k : Key} : k ∈ keysOfM t ↔ ∃ m ∈ t, m.key = k := by
  unfold keysOfM
  rw [List.mem_map]

lemma outerMerge_mem_elim {setV : MRow → Option ℚ → MRow} {blank : Key → Option ℚ → MRow}
    (hset : ∀ a v, (setV a v).key = a.key) {acc : List MRow} {t : List IRow} {r : MRow}
    (h : r ∈ outerMerge setV blank acc t) :
    (∃ a ∈ acc, r = setV a none ∧ r.key ∉ keysOfI t) ∨
    (∃ a ∈ acc, ∃ m ∈ t, m.key = a.key ∧ r = setV a m.value) ∨
    (∃ m ∈ t, r = blank m.key m.value) := by
  unfold outerMerge at h
  rcases List.mem_append.mp h with h1 | h2
  · obtain ⟨a, ha, hr⟩ := List.mem_flatMap.mp h1
    cases hms : t.filter (fun m => m.key == a.key) with
    | nil =>
        rw [hms] at hr
        rw [List.mem_singleton] at hr
        subst hr
        refine Or.inl ⟨a, ha, rfl, ?_⟩
        rw [hset, mem_keysOfI]
        rintro ⟨m, hm, hk⟩
        have := List.filter_eq_nil_iff.mp hms m hm
        simp [hk] at this
    | cons b l =>
        rw [hms] at hr
        obtain ⟨m, hm, rfl⟩ := List.mem_map.mp hr
        rw [← hms] at hm
        rw [List.mem_filter] at hm
        refine Or.inr (Or.inl ⟨a, ha, m, hm.1, ?_, rfl⟩)
        have := hm.2
        rwa [beq_iff_eq] at this
  · obtain ⟨m, hm, rfl⟩ := List.mem_map.mp h2
    rw [List.mem_filter] at hm
    exact Or.inr (Or.inr ⟨m, hm.1, rfl⟩)

lemma outerMerge_left_mem (setV : MRow → Option ℚ → MRow) (blank : Key → Option ℚ → MRow)
    (acc : List MRow) (t : List IRow) {a : MRow} (ha : a ∈ acc) :
    ∃ v, setV a v ∈ outerMerge setV blank acc t := by
  unfold outerMerge
  cases hms : t.filter (fun m => m.key == a.key) with
  | nil =>
      refine ⟨none, List.mem_append_left _ ?_⟩
      refine List.mem_flatMap.mpr ⟨a, ha, ?_⟩
      rw [hms]
      exact List.mem_singleton.mpr rfl
  | cons b l =>
      refine ⟨b.value, List.mem_append_left _ ?_⟩
      refine List.mem_flatMap.mpr ⟨a, ha, ?_⟩
      rw [hms]
      exact List.mem_map.mpr ⟨b, List.mem_cons_self b l, rfl⟩

lemma outerMerge_right_mem (setV : MRow → Option ℚ → MRow) (blank : Key → Option ℚ → MRow)
    (acc : List MRow) (t : List IRow) {m : IRow} (hm : m ∈ t)
    (hnew : ∀ a ∈ acc, a.key ≠ m.key) :
    blank m.key m.value ∈ outerMerge setV blank acc t := by
  unfold outerMerge
  apply List.mem_append_right
  apply List.mem_map.mpr
  refine ⟨m, ?_, rfl⟩
  rw [List.mem_filter]
  refine ⟨hm, ?_⟩
  have : (acc.any fun a => a.key == m.key) = false := by
    rw [List.any_eq_false]
    intro a ha
    simp [hnew a ha]
  rw [this]
  rfl

lemma keys_outerMerge {setV : MRow → Option ℚ → MRow} {blank : Key → Option ℚ → MRow}
    (hset : ∀ a v, (setV a v).key = a.key) (hblank : ∀ k v, (blank k v).key = k)
    (acc : List MRow) (t : List IRow) (k : Key) :
    k ∈ keysOfM (outerMerge setV blank acc t) ↔ k ∈ keysOfM acc ∨ k ∈ keysOfI t := by
  constructor
  · intro h
    obtain ⟨r, hr, rfl⟩ := mem_keysOfM.mp h
    rcases outerMerge_mem_elim hset hr with ⟨a, ha, rfl, -⟩ | ⟨a, ha, m, hm, hk, rfl⟩ |
      ⟨m, hm, rfl⟩
    · exact Or.inl (mem_keysOfM.mpr ⟨a, ha, (hset a none).symm⟩)
    · refine Or.inr (mem_keysOfI.mpr ⟨m, hm, ?_⟩)
      rw [hk, hset]
    · exact Or.inr (mem_keysOfI.mpr ⟨m, hm, (hblank m.key m.value).symm⟩)
  · intro h
    by_cases hacc : k ∈ keysOfM acc
    · obtain ⟨a, ha, rfl⟩ := mem_keysOfM.mp hacc
      obtain ⟨v, hv⟩ := outerMerge_left_mem setV blank acc t ha
      exact mem_keysOfM.mpr ⟨setV a v, hv, hset a v⟩
    · rcases h with h | h
      · exact absurd h hacc
      · obtain ⟨m, hm, rfl⟩ := mem_keysOfI.mp h
        have hnew : ∀ a ∈ acc, a.key ≠ m.key := by
          intro a ha he
          exact hacc (mem_keysOfM.mpr ⟨a, ha, he⟩)
        exact mem_keysOfM.mpr
          ⟨blank m.key m.value, outerMerge_right_mem setV blank acc t hm hnew,
           hblank m.key m.value⟩

lemma outerMerge_col_new {setV : MRow → Option ℚ → MRow} {blank : Key → Option ℚ → MRow}
    (getC : MRow → Option ℚ)
    (hset : ∀ a v, (setV a v).key = a.key)
    (hsetc : ∀ a v, getC (setV a v) = v)
    (hblankk : ∀ k v, (blank k v).key = k)
    {acc : List MRow} {t : List IRow} :
    ∀ r ∈ outerMerge setV blank acc t, r.key ∉ keysOfI t → getC r = none := by
  intro r hr hk
  rcases outerMerge_mem_elim hset hr with ⟨a, ha, rfl, -⟩ | ⟨a, ha, m, hm, hkey, rfl⟩ |
    ⟨m, hm, rfl⟩
  · exact hsetc a none
  · exact absurd (mem_keysOfI.mpr ⟨m, hm, by rw [hkey, hset]⟩) hk
  · exact absurd (mem_keysOfI.mpr ⟨m, hm, (hblankk m.key m.value).symm⟩) hk

lemma outerMerge_col_pres {setV : MRow → Option ℚ → MRow} {blank : Key → Option ℚ → MRow}
    (getC : MRow → Option ℚ) (K : List Key)
    (hset : ∀ a v, (setV a v).key = a.key)
    (hsetc : ∀ a v, getC (setV a v) = getC a)
    (hblankc : ∀ k v, getC (blank k v) = none)
    {acc : List MRow} {t : List IRow}
    (hacc : ∀ a ∈ acc, a.key ∉ K → getC a = none) :
    ∀ r ∈ outerMerge setV blank acc t, r.key ∉ K → getC r = none := by
  intro r hr hk
  rcases outerMerge_mem_elim hset hr with ⟨a, ha, rfl, -⟩ | ⟨a, ha, m, hm, hkey, rfl⟩ |
    ⟨m, hm, rfl⟩
  · rw [hsetc]
    exact hacc a ha (by rwa [hset a none] at hk)
  · rw [hsetc]
    exact hacc a ha (by rwa [hset a m.value] at hk)
  · exact hblankc _ _

lemma keys_initCo2 (c : List IRow) (k : Key) :
    k ∈ keysOfM (c.map initCo2) ↔ k ∈ keysOfI c := by
  rw [mem_keysOfM, mem_keysOfI]
  constructor
  · rintro ⟨r, hr, rfl⟩
    obtain ⟨m, hm, rfl⟩ := List.mem_map.mp hr
    exact ⟨m, hm, rfl⟩
  · rintro ⟨m, hm, rfl⟩
    exact ⟨initCo2 m, List.mem_map.mpr ⟨m, hm, rfl⟩, rfl⟩

/-- C1: the chain of outer joins on (iso3, country, year) has as key set
exactly the union of the five input key sets, and for any merged row the
value column of a table lacking that row's key is null. -/
theorem merge_outer_union_nulls :
    ∀ (c e w s g : List IRow),
      (∀ k, k ∈ keysOfM (mergeAll c e w s g) ↔
        (k ∈ keysOfI c ∨ k ∈ keysOfI e ∨ k ∈ keysOfI w ∨ k ∈ keysOfI s ∨ k ∈ keysOfI g)) ∧
      (∀ r ∈ mergeAll c e w s g,
        (r.key ∉ keysOfI c → r.co2_pc = none) ∧
        (r.key ∉ keysOfI e → r.energy_pc = none) ∧
        (r.key ∉ keysOfI w → r.water_basic_pct = none) ∧
        (r.key ∉ keysOfI s → r.sanitation_pct = none) ∧
        (r.key ∉ keysOfI g → r.gdp_pc = none)) := by
  intro c e w s g
  have hkE : ∀ (a : MRow) v, (setEnergy a v).key = a.key := fun a v => rfl
  have hkW : ∀ (a : MRow) v, (setWater a v).key = a.key := fun a v => rfl
  have hkS : ∀ (a : MRow) v, (setSanit a v).key = a.key := fun a v => rfl
  have hkG : ∀ (a : MRow) v, (setGdp a v).key = a.key := fun a v => rfl
  have hbE : ∀ (k : Key) v, (blankEnergy k v).key = k := fun k v => rfl
  have hbW : ∀ (k : Key) v, (blankWater k v).key = k := fun k v => rfl
  have hbS : ∀ (k : Key) v, (blankSanit k v).key = k := fun k v => rfl
  have hbG : ∀ (k : Key) v, (blankGdp k v).key = k := fun k v => rfl
  constructor
  · intro k
    unfold mergeAll
    rw [keys_outerMerge hkG hbG, keys_outerMerge hkS hbS, keys_outerMerge hkW hbW,
      keys_outerMerge hkE hbE, keys_initCo2]
    tauto
  · intro r hr
    unfold mergeAll at hr
    refine ⟨?_, ?_, ?_, ?_, ?_⟩
    · revert r hr
      apply outerMerge_col_pres (fun r => r.co2_pc) (keysOfI c) hkG (fun a v => rfl)
        (fun k v => rfl)
      apply outerMerge_col_pres (fun r => r.co2_pc) (keysOfI c) hkS (fun a v => rfl)
        (fun k v => rfl)
      apply outerMerge_col_pres (fun r => r.co2_pc) (keysOfI c) hkW (fun a v => rfl)
        (fun k v => rfl)
      apply outerMerge_col_pres (fun r => r.co2_pc) (keysOfI c) hkE (fun a v => rfl)
        (fun k v => rfl)
      intro a ha hk
      obtain ⟨m, hm, rfl⟩ := List.mem_map.mp ha
      exact absurd (mem_keysOfI.mpr ⟨m, hm, rfl⟩) hk
    · revert r hr
      apply outerMerge_col_pres (fun r => r.energy_pc) (keysOfI e) hkG (fun a v => rfl)
        (fun k v => rfl)
      apply outerMerge_col_pres (fun r => r.energy_pc) (keysOfI e) hkS (fun a v => rfl)
        (fun k v => rfl)
      apply outerMerge_col_pres (fun r => r.energy_pc) (keysOfI e) hkW (fun a v => rfl)
        (fun k v => rfl)
      apply outerMerge_col_new (fun r => r.energy_pc) hkE (fun a v => rfl) hbE
    · revert r hr
      apply outerMerge_col_pres (fun r => r.water_basic_pct) (keysOfI w) hkG (fun a v => rfl)
        (fun k v => rfl)
      apply outerMerge_col_pres (fun r => r.water_basic_pct) (keysOfI w) hkS (fun a v => rfl)
        (fun k v => rfl)
      apply outerMerge_col_new (fun r => r.water_basic_pct) hkW (fun a v => rfl) hbW
    · revert r hr
      apply outerMerge_col_pres (fun r => r.sanitation_pct) (keysOfI s) hkG (fun a v => rfl)
        (fun k v => rfl)
      apply outerMerge_col_new (fun r => r.sanitation_pct) hkS (fun a v => rfl) hbS
    · revert r hr
      apply outerMerge_col_new (fun r => r.gdp_pc) hkG (fun a v => rfl) hbG

def kC1 : Key := ⟨"USA", .str "United States", 2015⟩

def cC1 : List IRow := [⟨kC1, some 1⟩]

def gC1 : List IRow := [⟨kC1, some 2⟩]

def rC1 : MRow := ⟨kC1, some 1, none, none, none, some 2, none⟩

theorem merge_outer_union_nulls_witness :
    (kC1 ∈ keysOfM (mergeAll cC1 [] [] [] gC1)) ∧ rC1.water_basic_pct = none :=
  ⟨((merge_outer_union_nulls cC1 [] [] [] gC1).1 kC1).mpr (Or.inl (by decide)),
   (((merge_outer_union_nulls cC1 [] [] [] gC1).2 rC1 (by decide)).2.2.1 (by decide))⟩

lemma leftMerge_mem_elim {acc : List MRow} {t : List IRow} {r : MRow}
    (h : r ∈ leftMerge acc t) :
    ∃ a ∈ acc, ∃ v, r = { a with temp_anom := v } := by
  unfold leftMerge at h
  obtain ⟨a, ha, hr⟩ := List.mem_flatMap.mp h
  cases hms : t.filter (fun m => m.key == a.key) with
  | nil =>
      rw [hms] at hr
      rw [List.mem_singleton] at hr
      exact ⟨a, ha, none, hr⟩
  | cons b l =>
      rw [hms] at hr
      obtain ⟨m, hm, rfl⟩ := List.mem_map.mp hr
      exact ⟨a, ha, m.value, rfl⟩

lemma leftMerge_left_mem {acc : List MRow} (t : List IRow) {a : MRow} (ha : a ∈ acc) :
    ∃ v, ({ a with temp_anom := v } : MRow) ∈ leftMerge acc t := by
  unfold leftMerge
  cases hms : t.filter (fun m => m.key == a.key) with
  | nil =>
      refine ⟨none, List.mem_flatMap.mpr ⟨a, ha, ?_⟩⟩
      rw [hms]
      exact List.mem_singleton.mpr rfl
  | cons b l =>
      refine ⟨b.value, List.mem_flatMap.mpr ⟨a, ha, ?_⟩⟩
      rw [hms]
      exact List.mem_map.mpr ⟨b, List.mem_cons_self b l, rfl⟩

/-- C2: attaching the temperature table is a left join — the key set of
the result is exactly the key set of the merged indicator table (a key
present only in the temperature table creates no row), and each
temperature row whose key matches an existing merged row attaches its
value to that row. -/
theorem temp_left_join :
    ∀ (acc : List MRow) (t : List IRow),
      (∀ k, k ∈ keysOfM (leftMerge acc t) ↔ k ∈ keysOfM acc) ∧
      (∀ a ∈ acc, ∀ m ∈ t, m.key = a.key →
        ({ a with temp_anom := m.value } : MRow) ∈ leftMerge acc t) := by
  intro acc t
  constructor
  · intro k
    constructor
    · intro h
      obtain ⟨r, hr, rfl⟩ := mem_keysOfM.mp h
      obtain ⟨a, ha, v, rfl⟩ := leftMerge_mem_elim hr
      exact mem_keysOfM.mpr ⟨a, ha, rfl⟩
    · intro h
      obtain ⟨a, ha, rfl⟩ := mem_keysOfM.mp h
      obtain ⟨v, hv⟩ := leftMerge_left_mem t ha
      exact mem_keysOfM.mpr ⟨_, hv, rfl⟩
  · intro a ha m hm hk
    unfold leftMerge
    apply List.mem_flatMap.mpr
    refine ⟨a, ha, ?_⟩
    cases hms : t.filter (fun m2 => m2.key == a.key) with
    | nil =>
        exfalso
        have := List.filter_eq_nil_iff.mp hms m hm
        simp [hk] at this
    | cons b l =>
        have hmf : m ∈ t.filter (fun m2 => m2.key == a.key) := by
          rw [List.mem_filter]
          exact ⟨hm, by simp [hk]⟩
        rw [hms] at hmf
        exact List.mem_map.mpr ⟨m, hmf, rfl⟩

def kC2 : Key := ⟨"FRA", .str "France", 2010⟩

def accC2 : List MRow := [⟨kC1, some 1, none, none, none, none, none⟩]

def tmpC2 : List IRow := [⟨kC2, some 9⟩, ⟨kC1, some 7⟩]

theorem temp_left_join_witness :
    (kC2 ∈ keysOfM (leftMerge accC2 tmpC2) ↔ kC2 ∈ keysOfM accC2) ∧
    ({ (⟨kC1, some 1, none, none, none, none, none⟩ : MRow) with temp_anom := some 7 } : MRow)
      ∈ leftMerge accC2 tmpC2 :=
  ⟨(temp_left_join accC2 tmpC2).1 kC2,
   (temp_left_join accC2 tmpC2).2 ⟨kC1, some 1, none, none, none, none, none⟩ (by decide)
     ⟨kC1, some 7⟩ (by decide) (by decide)⟩

/-! ### Final sort of the master table (C7) -/

lemma filter_mergeSort_eq {α : Type} {le : α → α → Bool}
    (htrans : ∀ a b c, le a b = true → le b c = true → le a c = true)
    (htotal : ∀ a b, (le a b || le b a) = true)
    (p : α → Bool) (hp : ∀ a b, p a = true → p b = true → le a b = true)
    (l : List α) :
    (l.mergeSort le).filter p = l.filter p := by
  have hc : (l.filter p).Pairwise (fun a b => le a b = true) :=
    List.pairwise_of_forall_mem_list fun a ha b hb =>
      hp a b (List.mem_filter.mp ha).2 (List.mem_filter.mp hb).2
  have hsub : (l.filter p).Sublist (l.mergeSort le) :=
    List.sublist_mergeSort htrans htotal hc (List.filter_sublist l)
  have hself : (l.filter p).filter p = l.filter p :=
    List.filter_eq_self.mpr fun a ha => (List.mem_filter.mp ha).2
  have hsub2 : (l.filter p).Sublist ((l.mergeSort le).filter p) := by
    have h2 := List.Sublist.filter p hsub
    rwa [hself] at h2
  have hperm : ((l.mergeSort le).filter p).Perm (l.filter p) :=
    List.Perm.filter p (List.mergeSort_perm l le)
  exact (hsub2.eq_of_length hperm.length_eq.symm).symm

lemma mLe_iff (a b : MRow) : mLe a b = true ↔
    (a.key.iso3 < b.key.iso3 ∨ (a.key.iso3 = b.key.iso3 ∧ a.key.year ≤ b.key.year)) := by
  simp [mLe]

lemma mLe_trans : ∀ a b c, mLe a b = true → mLe b c = true → mLe a c = true := by
  intro a b c hab hbc
  rw [mLe_iff] at hab hbc ⊢
  rcases hab with h1 | ⟨h1, h2⟩ <;> rcases hbc with h3 | ⟨h3, h4⟩
  · exact Or.inl (lt_trans h1 h3)
  · exact Or.inl (by rw [← h3]; exact h1)
  · exact Or.inl (by rw [h1]; exact h3)
  · exact Or.inr ⟨h1.trans h3, le_trans h2 h4⟩

lemma mLe_total : ∀ a b, (mLe a b || mLe b a) = true := by
  intro a b
  rw [Bool.or_eq_true, mLe_iff, mLe_iff]
  rcases lt_trichotomy a.key.iso3 b.key.iso3 with h | h | h
  · exact Or.inl (Or.inl h)
  · rcases le_total a.key.year b.key.year with hy | hy
    · exact Or.inl (Or.inr ⟨h, hy⟩)
    · exact Or.inr (Or.inr ⟨h.symm, hy⟩)
  · exact Or.inr (Or.inl h)

/-- C7: the final sort orders the master table ascending by (iso3, year);
it is stable — for any sort key, the rows carrying that key appear in the
output in exactly the order they had before the sort — and it is a
permutation, so duplicate-key rows survive as separate rows, never
deduplicated. -/
theorem final_sort_stable :
    ∀ l : List MRow,
      (finalSort l).Pairwise (fun a b =>
        a.key.iso3 < b.key.iso3 ∨ (a.key.iso3 = b.key.iso3 ∧ a.key.year ≤ b.key.year)) ∧
      (∀ p : String × ℚ,
        (finalSort l).filter (fun r => (r.key.iso3, r.key.year) == p) =
          l.filter (fun r => (r.key.iso3, r.key.year) == p)) ∧
      (finalSort l).Perm l := by
  intro l
  refine ⟨?_, ?_, List.mergeSort_perm l mLe⟩
  · exact (List.sorted_mergeSort mLe_trans mLe_total l).imp fun h => (mLe_iff _ _).mp h
  · intro p
    apply filter_mergeSort_eq mLe_trans mLe_total
    intro a b ha hb
    rw [beq_iff_eq, Prod.ext_iff] at ha hb
    rw [mLe_iff]
    exact Or.inr ⟨ha.1.trans hb.1.symm, le_of_eq (ha.2.trans hb.2.symm)⟩

/-! ### Global monthly ordering (C8) -/

/-- Non-decreasing order on the (year, month_idx) key of consecutive
global monthly rows. -/
def gKeyLe (a b : GRow) : Prop :=
  a.year < b.year ∨ (a.year = b.year ∧ a.month_idx ≤ b.month_idx)

/-- The ordering asserted by the spec for consecutive rows: non-decreasing
and strictly increasing in at least one component. -/
def gKeyStrict (a b : GRow) : Prop :=
  gKeyLe a b ∧ (a.year < b.year ∨ a.month_idx < b.month_idx)

instance (a b : GRow) : Decidable (gKeyLe a b) :=
  inferInstanceAs (Decidable (a.year < b.year ∨ (a.year = b.year ∧ a.month_idx ≤ b.month_idx)))

instance (a b : GRow) : Decidable (gKeyStrict a b) :=
  inferInstanceAs (Decidable (gKeyLe a b ∧ (a.year < b.year ∨ a.month_idx < b.month_idx)))

lemma gLe_iff (a b : GRow) : gLe a b = true ↔ gKeyLe a b := by
  simp [gLe, gKeyLe]

lemma gLe_trans : ∀ a b c, gLe a b = true → gLe b c = true → gLe a c = true := by
  intro a b c hab hbc
  rw [gLe_iff] at hab hbc ⊢
  unfold gKeyLe at hab hbc ⊢
  rcases hab with h1 | ⟨h1, h2⟩ <;> rcases hbc with h3 | ⟨h3, h4⟩
  · exact Or.inl (lt_trans h1 h3)
  · exact Or.inl (by rw [← h3]; exact h1)
  · exact Or.inl (by rw [h1]; exact h3)
  · exact Or.inr ⟨h1.trans h3, le_trans h2 h4⟩

lemma gLe_total : ∀ a b, (gLe a b || gLe b a) = true := by
  intro a b
  rw [Bool.or_eq_true, gLe_iff, gLe_iff]
  unfold gKeyLe
  rcases lt_trichotomy a.year b.year with h | h | h
  · exact Or.inl (Or.inl h)
  · rcases Nat.le_total a.month_idx b.month_idx with hy | hy
    · exact Or.inl (Or.inr ⟨h, hy⟩)
    · exact Or.inr (Or.inr ⟨h.symm, hy⟩)
  · exact Or.inr (Or.inl h)

/-- Evaluation rule for the global export on a concrete table whose kept
rows are already in sorted order. -/
lemma export_eval {t : RawTable} {out : List GRow}
    (hhd : (["Entity", "Year", "Temperature anomaly"].all fun c => t.header.contains c) = true)
    (hfm : t.rows.filterMap
      (globalRow (t.colIdx "Year") (t.colIdx "Entity")
        (t.colIdx "Temperature anomaly")) = out)
    (hsort : out.Pairwise fun a b => gLe a b = true) :
    export_global_temp_monthly t = .ok out := by
  unfold export_global_temp_monthly
  rw [if_pos hhd, hfm, List.mergeSort_of_sorted hsort]

def tC8 : RawTable :=
  ⟨["Entity", "Year", "Temperature anomaly"],
   [[.str "January", .num 2010, .num 1],
    [.str "January", .num 2010, .num 2]]⟩

def outC8 : List GRow := [⟨"January", 2010, some 1, 1⟩, ⟨"January", 2010, some 2, 1⟩]

/-- C8 counterexample: two source rows for the same (month, year) survive
as two output rows with equal (year, month_idx) keys, so the consecutive
pair is not strictly increasing in any component — the claimed ordering
fails on duplicate-key input. -/
theorem global_monthly_strict_counterexample :
    export_global_temp_monthly tC8 = .ok outC8 ∧ ¬ List.Chain' gKeyStrict outC8 := by
  constructor
  · exact export_eval (by decide) (by decide) (by decide)
  · intro hch
    unfold outC8 at hch
    rw [List.chain'_cons] at hch
    exact absurd hch.1 (by decide)

lemma monthLookup_str {c : Cell} {p : String × Nat} (h : monthLookup c = some p) :
    monthLookup (Cell.str p.1) = some p := by
  cases c with
  | str s =>
      rw [show monthLookup (Cell.str s) =
        (month_order.indexOf? s).map (fun i => (s, i + 1)) from rfl] at h
      obtain ⟨i, hi, hp⟩ := Option.map_eq_some'.mp h
      subst hp
      show (month_order.indexOf? s).map (fun i2 => (s, i2 + 1)) = some (s, i + 1)
      rw [hi]
      rfl
  | num q => exact absurd h (by simp [monthLookup])
  | null => exact absurd h (by simp [monthLookup])

lemma globalRow_month {yi ei ai : Option Nat} {row : List Cell} {g : GRow}
    (h : globalRow yi ei ai row = some g) :
    monthLookup (Cell.str g.month) = some (g.month, g.month_idx) := by
  unfold globalRow at h
  split at h
  · exact absurd h (by simp)
  · split at h
    · split at h
      · rename_i mi hmi
        injection h with h
        subst h
        exact monthLookup_str hmi
      · exact absurd h (by simp)
    · exact absurd h (by simp)

lemma chain_strict_of_nodup :
    ∀ l : List GRow, List.Chain' gKeyLe l →
      ((l.map fun g2 => (g2.year, g2.month_idx)).Nodup) → List.Chain' gKeyStrict l
  | [] , _, _ => List.chain'_nil
  | [a], _, _ => List.chain'_singleton a
  | a :: b :: l, hch, hnd => by
      rw [List.chain'_cons] at hch
      rw [List.map_cons, List.nodup_cons] at hnd
      refine List.chain'_cons.mpr
        ⟨⟨hch.1, ?_⟩, chain_strict_of_nodup (b :: l) hch.2 hnd.2⟩
      have hne : (a.year, a.month_idx) ≠ (b.year, b.month_idx) := by
        intro h0
        apply hnd.1
        rw [List.map_cons, h0]
        exact List.mem_cons_self _ _
      rcases hch.1 with h | ⟨h1, h2⟩
      · exact Or.inl h
      · refine Or.inr (lt_of_le_of_ne h2 ?_)
        intro h3
        exact hne (by rw [h1, h3])

/-- C8 (amended): the global monthly output is non-decreasing in
(year, month_idx) for every consecutive pair, and strictly increasing in
at least one component whenever the kept rows have pairwise distinct
(year, month_idx) keys (duplicate source rows for one month produce equal
consecutive keys); every surviving row's month name is an exact,
case-sensitive English month name, unrecognized names being dropped; the
export fails only when a required column is missing, never on row
contents. -/
theorem global_monthly_ordering :
    (∀ (t : RawTable) (out : List GRow), export_global_temp_monthly t = .ok out →
      List.Chain' gKeyLe out ∧
      (((out.map fun g2 => (g2.year, g2.month_idx)).Nodup) → List.Chain' gKeyStrict out) ∧
      ∀ g2 ∈ out, monthLookup (Cell.str g2.month) = some (g2.month, g2.month_idx)) ∧
    ∀ t : RawTable,
      (∃ e, export_global_temp_monthly t = .error e) ↔
        ¬ ((["Entity", "Year", "Temperature anomaly"].all fun c2 => t.header.contains c2)
          = true) := by
  constructor
  · intro t out h
    unfold export_global_temp_monthly at h
    split at h
    · rw [Except.ok.injEq] at h
      subst h
      have hch : List.Chain' gKeyLe (List.mergeSort
          (t.rows.filterMap (globalRow (t.colIdx "Year") (t.colIdx "Entity")
            (t.colIdx "Temperature anomaly"))) gLe) :=
        ((List.sorted_mergeSort gLe_trans gLe_total _).imp
          fun h2 => (gLe_iff _ _).mp h2).chain'
      refine ⟨hch, fun hnd => chain_strict_of_nodup _ hch hnd, ?_⟩
      intro g2 hg
      rw [List.mem_mergeSort] at hg
      obtain ⟨row, -, hrow⟩ := List.mem_filterMap.mp hg
      exact globalRow_month hrow
    · exact absurd h (by simp)
  · intro t
    unfold export_global_temp_monthly
    by_cases hc : (["Entity", "Year", "Temperature anomaly"].all fun c2 =>
        t.header.contains c2) = true
    · rw [if_pos hc]
      refine ⟨fun h0 => ?_, fun h0 => absurd hc h0⟩
      obtain ⟨e, he⟩ := h0
      exact absurd he (by simp)
    · rw [if_neg hc]
      exact ⟨fun _ => hc, fun _ => ⟨.badGlobalColumns, rfl⟩⟩

theorem global_monthly_ordering_witness :
    List.Chain' gKeyLe outC8 ∧
    monthLookup (Cell.str "January") = some ("January", 1) := by
  have h := (global_monthly_ordering.1 tC8 outC8
    (export_eval (by decide) (by decide) (by decide)))
  exact ⟨h.1, h.2.2 ⟨"January", 2010, some 1, 1⟩ (by decide)⟩

/-! ### Annual temperature aggregation (C4) -/

lemma mean_def (vs : List (Option ℚ)) :
    meanOpt vs = if (vs.filterMap id).isEmpty then none
      else some ((vs.filterMap id).sum / ((vs.filterMap id).length : ℚ)) := rfl

lemma groupMean_keys_nodup (rows : List IRow) :
    ((groupMean rows).map fun r => r.key).Nodup := by
  unfold groupMean
  rw [List.map_map]
  have : ((fun r : IRow => r.key) ∘ fun k =>
      (⟨k, meanOpt ((rows.filter fun r => r.key == k).map fun r => r.value)⟩ : IRow)) = id := by
    funext k
    rfl
  rw [this, List.map_id]
  exact List.nodup_dedup _

lemma groupMean_keys_mem (rows : List IRow) (k : Key) :
    k ∈ (groupMean rows).map (fun r => r.key) ↔ k ∈ rows.map fun r => r.key := by
  unfold groupMean
  rw [List.map_map]
  have : ((fun r : IRow => r.key) ∘ fun k =>
      (⟨k, meanOpt ((rows.filter fun r => r.key == k).map fun r => r.value)⟩ : IRow)) = id := by
    funext k
    rfl
  rw [this, List.map_id]
  exact List.mem_dedup

lemma groupMean_value {rows : List IRow} {r : IRow} (h : r ∈ groupMean rows) :
    r.value = meanOpt ((rows.filter fun r2 => r2.key == r.key).map fun r2 => r2.value) := by
  unfold groupMean at h
  obtain ⟨k, -, rfl⟩ := List.mem_map.mp h
  rfl

def tC4 : RawTable :=
  ⟨["Entity", "Code", "Day", "Temperature anomaly"],
   [[.str "Testland", .str "TST", .str "2010-06-01", .num 1],
    [.str "Testland", .str "TST", .str "2010-07-15", .num 3]]⟩

lemma meanOpt_13 : meanOpt [some (1 : ℚ), some 3] = some 2 := by
  rw [mean_def]
  have h1 : [some (1 : ℚ), some 3].filterMap id = [1, 3] := rfl
  rw [h1]
  norm_num

/-- C4: the annual temperature aggregation yields exactly one row per
(iso3, country, year) group — its keys are exactly the distinct
preprocessed group keys — whose value is the arithmetic mean of the
group's non-null anomaly values, and null (never zero) when the group has
no non-null value; in particular two daily rows for TST in 2010 with
anomalies 1.0 and 3.0 aggregate to the single row (TST, 2010, 2.0). -/
theorem temp_annual_mean :
    (∀ (t : RawTable) (out : List IRow), load_country_temp_anom t = .ok out →
      ((out.map fun r => r.key).Nodup ∧
       (∀ k, k ∈ out.map (fun r => r.key) ↔ k ∈ (tempGroups t).map fun r => r.key) ∧
       (∀ r ∈ out,
         (((tempGroups t).filter (fun r2 => r2.key == r.key)).map fun r2 => r2.value).filterMap
             id = [] → r.value = none) ∧
       (∀ r ∈ out, ∀ xs,
         ((((tempGroups t).filter (fun r2 => r2.key == r.key)).map fun r2 =>
             r2.value).filterMap id) = xs → xs ≠ [] →
           r.value = some (xs.sum / (xs.length : ℚ))))) ∧
    load_country_temp_anom tC4 = .ok [⟨⟨"TST", .str "Testland", 2010⟩, some 2⟩] := by
  constructor
  · intro t out h
    unfold load_country_temp_anom at h
    split at h
    · rw [Except.ok.injEq] at h
      subst h
      refine ⟨groupMean_keys_nodup _, fun k => groupMean_keys_mem _ k, ?_, ?_⟩
      · intro r hr hxs
        rw [groupMean_value hr, mean_def, hxs]
        rfl
      · intro r hr xs hxs hne
        rw [groupMean_value hr, mean_def, hxs]
        rw [if_neg (by simpa using hne)]
    · exact absurd h (by simp)
  · unfold load_country_temp_anom
    rw [if_pos (by decide)]
    have h1 : tempGroups tC4 =
        [⟨⟨"TST", .str "Testland", 2010⟩, some 1⟩, ⟨⟨"TST", .str "Testland", 2010⟩, some 3⟩] := by
      decide
    rw [h1]
    have h2 : groupMean
        [⟨⟨"TST", .str "Testland", 2010⟩, some 1⟩, ⟨⟨"TST", .str "Testland", 2010⟩, some 3⟩] =
        [⟨⟨"TST", .str "Testland", 2010⟩, meanOpt [some 1, some 3]⟩] := by
      rfl
    rw [h2, meanOpt_13]

theorem temp_annual_mean_witness :
    (([⟨⟨"TST", .str "Testland", 2010⟩, some 2⟩] : List IRow).map fun r => r.key).Nodup :=
  ((temp_annual_mean.1 tC4 [⟨⟨"TST", .str "Testland", 2010⟩, some 2⟩]
    temp_annual_mean.2)).1

/-! ### Failure policy of `main` (C5) -/

/-- C5: a missing required indicator file is fatal — `main` aborts with
`FileNotFoundError` before reading or writing anything; a schema error in
any of the five required indicator sources is not caught and aborts the
run; a schema error in the temperature source is caught at its point of
use, the pipeline succeeding with the temperature feature marked absent
exactly when the temperature zip is missing or fails to load. -/
theorem main_failure_policy :
    ∀ env : Env,
      ((env.co2 = none ∨ env.energy = none ∨ env.water = none ∨ env.sanit = none ∨
          env.gdp = none) → main env = .error .missingFiles) ∧
      (∀ tc te tw ts tg, env.co2 = some tc → env.energy = some te → env.water = some tw →
        env.sanit = some ts → env.gdp = some tg →
        ((¬ (read_owid_csv tc).isOk = true ∨ ¬ (read_owid_csv te).isOk = true ∨
          ¬ (read_owid_csv tw).isOk = true ∨ ¬ (read_owid_csv ts).isOk = true ∨
          ¬ (read_owid_csv tg).isOk = true) →
            ∃ e, main env = .error (MainErr.schema e)) ∧
        (∀ c5 e5 w5 s5 g5, read_owid_csv tc = .ok c5 → read_owid_csv te = .ok e5 →
          read_owid_csv tw = .ok w5 → read_owid_csv ts = .ok s5 → read_owid_csv tg = .ok g5 →
          ∃ out, main env = .ok out ∧
            (out.tempUsed = true ↔
              ∃ tz tp, env.tempZip = some tz ∧ load_country_temp_anom tz = .ok tp))) := by
  intro env
  rcases env with ⟨co2, en, wa, sa, gd, tz, gz⟩
  constructor
  · intro h
    simp only at h
    cases co2 <;> cases en <;> cases wa <;> cases sa <;> cases gd <;>
      first
        | rfl
        | simp_all
  · intro tc te tw ts tg h1 h2 h3 h4 h5
    simp only at h1 h2 h3 h4 h5
    subst h1
    subst h2
    subst h3
    subst h4
    subst h5
    have hm : main ⟨some tc, some te, some tw, some ts, some tg, tz, gz⟩ =
        mainLoaded tc te tw ts tg tz gz := rfl
    constructor
    · intro hbad
      rw [hm]
      unfold mainLoaded
      cases hc : read_owid_csv tc with
      | error e => exact ⟨e, rfl⟩
      | ok c5 =>
        cases he : read_owid_csv te with
        | error e => exact ⟨e, rfl⟩
        | ok e5 =>
          cases hw : read_owid_csv tw with
          | error e => exact ⟨e, rfl⟩
          | ok w5 =>
            cases hs : read_owid_csv ts with
            | error e => exact ⟨e, rfl⟩
            | ok s5 =>
              cases hg : read_owid_csv tg with
              | error e => exact ⟨e, rfl⟩
              | ok g5 =>
                exfalso
                rcases hbad with hb | hb | hb | hb | hb
                · exact hb (by rw [hc]; rfl)
                · exact hb (by rw [he]; rfl)
                · exact hb (by rw [hw]; rfl)
                · exact hb (by rw [hs]; rfl)
                · exact hb (by rw [hg]; rfl)
    · intro c5 e5 w5 s5 g5 hc he hw hs hg
      rw [hm]
      unfold mainLoaded
      rw [hc, he, hw, hs, hg]
      refine ⟨_, rfl, ?_⟩
      show (tempFeature tz).isSome = true ↔
        ∃ tz2 tp, tz = some tz2 ∧ load_country_temp_anom tz2 = .ok tp
      cases tz with
      | none =>
          unfold tempFeature
          simp
      | some z =>
          unfold tempFeature
          dsimp only
          cases hl : load_country_temp_anom z with
          | error e =>
              simp only [Except.toOption, Option.isSome_none]
              constructor
              · intro h0
                exact absurd h0 (by simp)
              · rintro ⟨tz2, tp, htz, hload⟩
                rw [Option.some.injEq] at htz
                subst htz
                rw [hl] at hload
                exact absurd hload (by simp)
          | ok tp =>
              simp only [Except.toOption, Option.isSome_some, true_iff]
              exact ⟨z, tp, rfl, hl⟩

def envC5 : Env := ⟨none, some tC3, some tC3, some tC3, some tC3, none, none⟩

theorem main_failure_policy_witness : main envC5 = .error .missingFiles :=
  (main_failure_policy envC5).1 (Or.inl rfl)

end MergeData
